import Mathlib

/-!
Verification of the report presenter (`src/presenter.rs`) of the rustsec
audit tool.  The presenter is embedded shallowly: printing to the terminal
becomes the accumulation of a list of `OutputLine` events, the mutable
`Presenter` struct becomes an explicit state record threaded through the
functions, and a Rust `panic!`/`expect` becomes a `none` result carrying
the output flushed so far.  External collaborators (`DependencyGraph::new`
from the `cargo_lock` crate) are universally quantified function
parameters; the tree renderer (`presenter/tree.rs`), whose source is not
part of the excerpt, is modelled from the spec.
-/

namespace RustsecPresenter

/-- A resolved package identity `(name, version)`; mirrors
`cargo_lock::package::Release` as used by `Presenter::print_tree`
(versions are kept in their displayed string form). -/
structure Release where
  name : String
  version : String
deriving DecidableEq, Repr

/-- A lockfile package, mirroring the fields of `cargo_lock::Package` the
presenter reads: `name`, `version` (as its display string) and the resolved
dependency list (used only by the external graph builder). -/
structure Package where
  name : String
  version : String
  dependencies : List Release
deriving DecidableEq, Repr

/-- Rust `Package::release()`: project a package to its `(name, version)` identity. -/
def Package.release (p : Package) : Release :=
  ⟨p.name, p.version⟩

/-- Advisory identifier; `idUrl` models the result of the external
`rustsec::advisory::Id::url()` method (the canonical URL derived from the
id, when the id format admits one). -/
structure AdvisoryId where
  idStr : String
  idUrl : Option String
deriving DecidableEq, Repr

/-- The advisory fields read by `Presenter::print_vulnerability`:
id, free-form `url`, `title`, `date`. -/
structure Advisory where
  id : AdvisoryId
  url : Option String
  title : String
  date : String
deriving DecidableEq, Repr

/-- A vulnerability: advisory metadata, the affected package, and the
patched version requirements already rendered to strings
(`versions.patched` mapped through `to_string`). -/
structure Vulnerability where
  advisory : Advisory
  package : Package
  patched : List String
deriving DecidableEq, Repr

/-- A warning (`rustsec::Warning`): crate name, message, optional URL. -/
structure Warning where
  package : String
  message : String
  url : Option String
deriving DecidableEq, Repr

/-- The `report.vulnerabilities` aggregate: `found`, `count`, `list`. -/
structure VulnerabilityInfo where
  found : Bool
  count : Nat
  list : List Vulnerability
deriving DecidableEq, Repr

/-- The parts of `rustsec::Report` the presenter reads. -/
structure Report where
  vulnerabilities : VulnerabilityInfo
  warnings : List Warning
deriving DecidableEq, Repr

/-- A lockfile: the presenter reads only its package list. -/
structure Lockfile where
  packages : List Package
deriving DecidableEq, Repr

/-- Terminal colors used by the presenter. -/
inductive Color where
  | red
  | yellow
deriving DecidableEq, Repr

/-- Output format of `OutputConfig` (`config.rs` is outside the excerpt;
the presenter only compares against `OutputFormat::Json`). -/
inductive OutputFormat where
  | terminal
  | json
deriving DecidableEq, Repr

/-- The output configuration fields the presenter consumes:
`format`, `is_quiet()` and `show_tree`. -/
structure OutputConfig where
  format : OutputFormat
  quiet : Bool
  showTree : Option Bool
deriving DecidableEq, Repr

/-- One line/event written to standard output.  `json` stands for the
`serde_json::to_writer` serialization of a whole report; `statusOk`,
`statusErr`, `statusWarn` are the `status_ok!` / `status_err!` /
`status_warn!` macros; `blank` is `println!()`; `attr` is
`Presenter::print_attr`; `treeHeader` is the bold "Dependency tree:"
status line and `treeLine` one indented node line of the rendered tree. -/
inductive OutputLine where
  | json (r : Report)
  | statusOk (status : String) (msg : String)
  | statusErr (msg : String)
  | statusWarn (msg : String)
  | blank
  | attr (color : Color) (label : String) (content : String)
  | treeHeader (color : Color)
  | treeLine (depth : Nat) (name : String) (version : String)
deriving DecidableEq, Repr

/-- The `Presenter` struct: the `displayed_packages` dedup set (a
`BTreeSet<package::Release>`, modelled as a duplicate-free list) and the
output configuration. -/
structure PState where
  displayed : List Release
  config : OutputConfig
deriving DecidableEq, Repr

/-- Rust `BTreeSet::insert`: returns the updated set and `true` iff the value
was not yet present (Rust's `insert` return value). -/
def setInsert (s : List Release) (r : Release) : List Release × Bool :=
  if r ∈ s then (s, false) else (r :: s, true)

/-- Constructor `Presenter::new`: empty `displayed_packages`, cloned config. -/
def Presenter.new (config : OutputConfig) : PState :=
  ⟨[], config⟩

/-! ### The dependency graph and the tree renderer

`DependencyGraph` is kept as an adjacency list from a release to the
releases rendered below it in the inverse dependency tree (its
dependents, per the spec's purpose statement). -/

/-- Adjacency representation of the dependency graph: each node paired
with the children the tree renderer descends into. -/
def Graph : Type := List (Release × List Release)

/-- The node set of a graph. -/
def graphNodes (g : Graph) : List Release :=
  g.map Prod.fst

/-- Strict lexicographic order on character lists (by code point). -/
def charsLT : List Char → List Char → Bool
  | [], [] => false
  | [], _ :: _ => true
  | _ :: _, [] => false
  | x :: xs, y :: ys =>
    x.toNat < y.toNat || (x.toNat == y.toNat && charsLT xs ys)

/-- Lexicographic child order (name, then version), giving the stable
sibling order the spec requires. -/
def releaseLE (a b : Release) : Bool :=
  charsLT a.name.data b.name.data ||
    (a.name == b.name &&
      (charsLT a.version.data b.version.data || a.version == b.version))

/-- Insert into a `releaseLE`-sorted list. -/
def insertRelease (r : Release) : List Release → List Release
  | [] => [r]
  | x :: xs => if releaseLE r x then r :: x :: xs else x :: insertRelease r xs

/-- Sort releases lexicographically by (name, version). -/
def sortReleases (l : List Release) : List Release :=
  l.foldr insertRelease []

/-- Children of a node: its adjacency entry, in stable sorted order;
a release with no entry in the graph has no children. -/
def childrenOf (g : Graph) (r : Release) : List Release :=
  match g.find? (fun e => e.fst == r) with
  | some e => sortReleases e.snd
  | none => []

/-- Modelled from the spec: `presenter/tree.rs` (`Tree::print_node`) is
absent from the excerpt.  Per §4.2 the renderer prints the node's
name/version line at the current indent depth, tracks the nodes on the
current path, and refuses to re-descend into a node already on that path,
printing it as a leaf instead; children are visited in stable
(name, version) order.  The guard also covers releases without a graph
entry, which have no children anyway, so the branch condition is
semantically the plain `r ∈ path` test (see `renderNode_eq_of_not_mem`). -/
def renderNode (g : Graph) (path : List Release) (depth : Nat) (r : Release) :
    List OutputLine :=
  if h : r ∈ path ∨ r ∉ graphNodes g then
    [.treeLine depth r.name r.version]
  else
    .treeLine depth r.name r.version ::
      (childrenOf g r).foldr
        (fun c acc => renderNode g (r :: path) (depth + 1) c ++ acc) []
termination_by ((graphNodes g).toFinset \ path.toFinset).card
decreasing_by
  push_neg at h
  refine Finset.card_lt_card ((Finset.ssubset_iff_of_subset ?_).mpr ⟨r, ?_, ?_⟩)
  · intro x hx
    simp only [Finset.mem_sdiff, List.mem_toFinset, List.toFinset_cons,
      Finset.mem_insert] at hx ⊢
    exact ⟨hx.1, fun hxp => hx.2 (Or.inr hxp)⟩
  · simp only [Finset.mem_sdiff, List.mem_toFinset]
    exact ⟨h.2, h.1⟩
  · simp

/-! ### The presenter operations (`src/presenter.rs`) -/

/-- Helper `Presenter::print_attr`: one bold colored status line with a label and
its content. -/
def printAttr (color : Color) (label content : String) : OutputLine :=
  .attr color label content

/-- Operation `Presenter::before_report`: unless the configuration is quiet, emit the
`Scanning` status line with the lockfile path and its package count.  The
receiver is `&mut self` in the source but nothing is mutated, so the state
comes back as it went in. -/
def beforeReport (st : PState) (lockfilePath : String) (lockfile : Lockfile) :
    PState × List OutputLine :=
  (st,
    if st.config.quiet then []
    else
      [.statusOk "Scanning"
        (lockfilePath ++ " for vulnerabilities (" ++
          toString lockfile.packages.length ++ " crate dependencies)")])

/-- Operation `Presenter::print_tree`: insert the package's release into
`displayed_packages` and return silently when it was already there; return
silently (but with the insertion kept) when `show_tree` is off; otherwise
print the "Dependency tree:" header and render the package's node.  Looking
the release up in `nodes()` panics (`none`) when the release has no node,
after the header has already been flushed. -/
def printTree (st : PState) (color : Color) (package : Package) (g : Graph) :
    List OutputLine × Option PState :=
  let inserted := setInsert st.displayed package.release
  let st' : PState := ⟨inserted.1, st.config⟩
  if !inserted.2 then ([], some st')
  else if !(st.config.showTree.getD true) then ([], some st')
  else if package.release ∈ graphNodes g then
    (.treeHeader color :: renderNode g [] 0 package.release, some st')
  else
    ([.treeHeader color], none)

/-- The attribute block of `Presenter::print_vulnerability`: blank line,
then the red lines for id, crate, version, date, the URL — the id-derived
URL if the id exposes one, else the advisory's free-form URL, else
nothing — the title and the "upgrade to" solution joining the patched
requirements with " OR ". -/
def vulnDetailLines (v : Vulnerability) : List OutputLine :=
  let advisory := v.advisory
  let urlLine : List OutputLine :=
    match advisory.id.idUrl with
    | some url => [printAttr .red "URL:     " url]
    | none =>
      match advisory.url with
      | some url => [printAttr .red "URL:     " url]
      | none => []
  OutputLine.blank ::
    printAttr .red "ID:      " advisory.id.idStr ::
    printAttr .red "Crate:   " v.package.name ::
    printAttr .red "Version: " v.package.version ::
    printAttr .red "Date:    " advisory.date ::
    (urlLine ++
      [printAttr .red "Title:   " advisory.title,
       printAttr .red "Solution: upgrade to"
         (String.intercalate " OR " v.patched)])

/-- Operation `Presenter::print_vulnerability`: the detail block followed by the
dependency tree. -/
def printVulnerability (st : PState) (v : Vulnerability) (g : Graph) :
    List OutputLine × Option PState :=
  let treeRes := printTree st .red v.package g
  (vulnDetailLines v ++ treeRes.1, treeRes.2)

/-- Operation `Presenter::print_warning`: blank line, yellow crate line, red message
line, optional yellow URL line.  No state is touched and no tree printed. -/
def printWarning (w : Warning) : List OutputLine :=
  OutputLine.blank ::
    printAttr .yellow "Crate:   " w.package ::
    printAttr .red "Message: " w.message ::
    (match w.url with
     | some url => [printAttr .yellow "URL:     " url]
     | none => [])

/-- The `for vulnerability in &report.vulnerabilities.list` loop of
`print_report`, threading the presenter state; a panic (`none`) stops the
loop and keeps the output flushed so far. -/
def printVulnList (g : Graph) (st : PState) :
    List Vulnerability → List OutputLine × Option PState
  | [] => ([], some st)
  | v :: rest =>
    match (printVulnerability st v g).2 with
    | none => ((printVulnerability st v g).1, none)
    | some st' =>
      ((printVulnerability st v g).1 ++ (printVulnList g st' rest).1,
        (printVulnList g st' rest).2)

/-- The found/not-found status line `print_report` starts with in human
mode. -/
def statusLines (report : Report) : List OutputLine :=
  if report.vulnerabilities.found then [.statusErr "Vulnerable crates found!"]
  else [.statusOk "Success" "No vulnerable packages found"]

/-- The warning section: nothing when there are no warnings, otherwise a
blank line, the warning status header, and each warning's block. -/
def warningLines (report : Report) : List OutputLine :=
  if report.warnings.isEmpty then []
  else
    OutputLine.blank ::
      OutputLine.statusWarn "found informational advisories for dependencies" ::
      (report.warnings.map printWarning).flatten

/-- The trailing summary: printed only when vulnerabilities were found,
with singular phrasing exactly for a count of one. -/
def summaryLines (report : Report) : List OutputLine :=
  if report.vulnerabilities.found then
    [.blank,
     .statusErr
       (if report.vulnerabilities.count = 1 then "1 vulnerability found!"
        else toString report.vulnerabilities.count ++ " vulnerabilities found!")]
  else []

/-- Operation `Presenter::print_report`.  `buildGraph` stands for the external
`DependencyGraph::new`, whose failure (`none`) the source turns into a
panic via `.expect("invalid Cargo.lock file")`.  In JSON mode the report
is serialized and the function returns at once; otherwise the status line,
the vulnerability blocks, the warning section and the summary are emitted
in order. -/
def printReport (buildGraph : Lockfile → Option Graph) (st : PState)
    (report : Report) (lockfile : Lockfile) : List OutputLine × Option PState :=
  if st.config.format = OutputFormat.json then
    ([.json report], some st)
  else
    match buildGraph lockfile with
    | none => (statusLines report, none)
    | some g =>
      match (printVulnList g st report.vulnerabilities.list).2 with
      | none =>
        (statusLines report ++ (printVulnList g st report.vulnerabilities.list).1,
          none)
      | some st' =>
        (statusLines report ++ (printVulnList g st report.vulnerabilities.list).1
          ++ warningLines report ++ summaryLines report, some st')

/-! ### Output-shape helpers -/

/-- Is this line part of a rendered dependency tree (header or node line)? -/
def isTreeOutput : OutputLine → Bool
  | .treeHeader _ => true
  | .treeLine _ _ _ => true
  | _ => false

/-- The root line a tree render for release `r` starts with. -/
def rootLine (r : Release) : OutputLine :=
  .treeLine 0 r.name r.version

/-- How many times the output contains the root line of a tree for `r`. -/
def rootCount (out : List OutputLine) (r : Release) : Nat :=
  out.countP (fun l => l == rootLine r)

/-- The URL attribute lines of an output fragment. -/
def urlLines (out : List OutputLine) : List OutputLine :=
  out.filter fun l =>
    match l with
    | .attr _ lab _ => lab == "URL:     "
    | _ => false

/-! ### Sample values used by the witnesses -/

/-- A JSON-mode output configuration. -/
def cfgJson : OutputConfig := ⟨.json, false, none⟩

/-- A human-mode output configuration. -/
def cfgHuman : OutputConfig := ⟨.terminal, false, none⟩

/-- An empty report. -/
def emptyReport : Report := ⟨⟨false, 0, []⟩, []⟩

/-- An empty lockfile. -/
def emptyLockfile : Lockfile := ⟨[]⟩

/-- A graph builder that always fails, as on a malformed lockfile. -/
def failingGraphFn : Lockfile → Option Graph := fun _ => none

/-- A graph builder returning the empty graph. -/
def emptyGraphFn : Lockfile → Option Graph := fun _ => some []

def relA : Release := ⟨"a-crate", "1.0.0"⟩

def relB : Release := ⟨"b-crate", "1.0.0"⟩

def relC : Release := ⟨"c-crate", "1.0.0"⟩

def relD : Release := ⟨"d-crate", "1.0.0"⟩

/-- The diamond of the spec, inverted for rendering: `a-crate` depends on
`b-crate` and `c-crate`, which both depend on `d-crate`; each node is
paired with its dependents. -/
def diamondG : Graph :=
  [(relA, []), (relB, [relA]), (relC, [relA]), (relD, [relB, relC])]

/-- A vulnerability whose advisory carries both an id-derived URL and a
free-form advisory URL. -/
def vulnBoth : Vulnerability :=
  ⟨⟨⟨"RUSTSEC-2021-0003", some "https://rustsec.org/advisories/RUSTSEC-2021-0003"⟩,
      some "https://example.com/advisory", "Buffer overflow", "2021-01-03"⟩,
    ⟨"smallvec", "0.6.13", []⟩, ["0.6.14"]⟩

/-- A presenter state that has already displayed `vulnBoth`'s release. -/
def stBoth : PState := ⟨[⟨"smallvec", "0.6.13"⟩], cfgHuman⟩

def vulnP1 : Vulnerability :=
  ⟨⟨⟨"RUSTSEC-2020-0001", none⟩, none, "first advisory", "2020-01-01"⟩,
    ⟨"p-crate", "1.0.0", []⟩, []⟩

def vulnP2 : Vulnerability :=
  ⟨⟨⟨"RUSTSEC-2020-0002", none⟩, none, "second advisory", "2020-02-01"⟩,
    ⟨"p-crate", "1.0.0", []⟩, []⟩

/-- A report with two vulnerabilities about the same package release. -/
def repTwice : Report := ⟨⟨true, 2, [vulnP1, vulnP2]⟩, []⟩

/-- A report with one vulnerability found (empty detail list suffices for
the counts). -/
def repFound1 : Report := ⟨⟨true, 1, []⟩, []⟩

/-! ### Theorems -/

theorem childrenOf_nonnil_mem {g : Graph} {r c : Release}
    (h : c ∈ childrenOf g r) : r ∈ graphNodes g := by
  unfold childrenOf at h
  cases hf : g.find? (fun e => e.fst == r) with
  | none => rw [hf] at h; simp at h
  | some e =>
    have hmem := List.mem_of_find?_eq_some hf
    have hprop := List.find?_some hf
    have : e.fst = r := by simpa using hprop
    subst this
    exact List.mem_map_of_mem Prod.fst hmem

theorem childrenOf_eq_nil_of_not_mem {g : Graph} {r : Release}
    (h : r ∉ graphNodes g) : childrenOf g r = [] := by
  cases hc : childrenOf g r with
  | nil => rfl
  | cons c cs => exact absurd (childrenOf_nonnil_mem (hc ▸ List.mem_cons_self c cs)) h

/-- Extending the current path by a node of the graph strictly shrinks the
set of graph nodes not yet on the path: the renderer's decreasing measure. -/
theorem card_sdiff_cons_lt (g : Graph) (path : List Release) (r : Release)
    (h1 : r ∉ path) (h2 : r ∈ graphNodes g) :
    ((graphNodes g).toFinset \ (r :: path).toFinset).card <
      ((graphNodes g).toFinset \ path.toFinset).card := by
  refine Finset.card_lt_card ((Finset.ssubset_iff_of_subset ?_).mpr ⟨r, ?_, ?_⟩)
  · intro x hx
    simp only [Finset.mem_sdiff, List.mem_toFinset, List.toFinset_cons,
      Finset.mem_insert] at hx ⊢
    exact ⟨hx.1, fun hxp => hx.2 (Or.inr hxp)⟩
  · simp only [Finset.mem_sdiff, List.mem_toFinset]
    exact ⟨h2, h1⟩
  · simp

theorem mem_foldr_append {f : Release → List OutputLine} {cs : List Release}
    {l : OutputLine} :
    l ∈ cs.foldr (fun c acc => f c ++ acc) [] ↔ ∃ c ∈ cs, l ∈ f c := by
  induction cs with
  | nil => simp
  | cons c cs ih => simp [ih]

/-- The first thing a render prints is the queried node itself, at the
current depth: the root of each printed tree is the queried package. -/
theorem renderNode_head (g : Graph) (path : List Release) (depth : Nat)
    (r : Release) :
    OutputLine.treeLine depth r.name r.version ∈ renderNode g path depth r := by
  rw [renderNode.eq_def]
  split
  · simp
  · simp

/-- Cycle guard: a node already on the current path is printed as a leaf
(one line), with no recursion into its children. -/
theorem renderNode_leaf (g : Graph) (path : List Release) (depth : Nat)
    (r : Release) (h : r ∈ path) :
    renderNode g path depth r = [.treeLine depth r.name r.version] := by
  rw [renderNode.eq_def]
  simp [h]

/-- The combined guard of `renderNode` agrees with the plain `r ∈ path`
test of the modelled renderer: for a node not on the path the render is
its own line followed by the renders of its children. -/
theorem renderNode_eq_of_not_mem (g : Graph) (path : List Release)
    (depth : Nat) (r : Release) (h : r ∉ path) :
    renderNode g path depth r =
      .treeLine depth r.name r.version ::
        (childrenOf g r).foldr
          (fun c acc => renderNode g (r :: path) (depth + 1) c ++ acc) [] := by
  rw [renderNode.eq_def]
  split
  · rename_i hcond
    rcases hcond with hcond | hcond
    · exact absurd hcond h
    · rw [childrenOf_eq_nil_of_not_mem hcond]
      rfl
  · rfl

/-- Everything below a child of an expanded node appears in the node's
own render. -/
theorem renderNode_child_subset (g : Graph) (path : List Release) (depth : Nat)
    (r c : Release) (hr : r ∉ path) (hc : c ∈ childrenOf g r) :
    ∀ l ∈ renderNode g (r :: path) (depth + 1) c, l ∈ renderNode g path depth r := by
  intro l hl
  rw [renderNode.eq_def]
  have hnode : r ∈ graphNodes g := childrenOf_nonnil_mem hc
  split
  · rename_i h
    rcases h with h | h
    · exact absurd h hr
    · exact absurd hnode h
  · exact List.mem_cons_of_mem _ (mem_foldr_append.mpr ⟨c, hc, hl⟩)

/-- Every printed line of a render is a tree line whose indent depth lies
between the starting depth and the starting depth plus the number of graph
nodes not yet on the path: traversal depth is bounded by the longest
simple path through the graph's node set. -/
theorem renderNode_lines (g : Graph) :
    ∀ (path : List Release) (depth : Nat) (r : Release),
      ∀ l ∈ renderNode g path depth r, ∃ d n v, l = .treeLine d n v ∧
        depth ≤ d ∧
        d ≤ depth + ((graphNodes g).toFinset \ path.toFinset).card := by
  intro path depth r
  induction path, depth, r using renderNode.induct g with
  | case1 path depth r hcond =>
    intro l hl
    rw [renderNode.eq_def, dif_pos hcond] at hl
    simp only [List.mem_singleton] at hl
    exact ⟨depth, r.name, r.version, hl, le_refl _, Nat.le_add_right _ _⟩
  | case2 path depth r hcond ih =>
    intro l hl
    rw [renderNode.eq_def, dif_neg hcond] at hl
    push_neg at hcond
    rcases List.mem_cons.mp hl with hl | hl
    · exact ⟨depth, r.name, r.version, hl, le_refl _, Nat.le_add_right _ _⟩
    · obtain ⟨c, _hc, hlc⟩ := mem_foldr_append.mp hl
      obtain ⟨d, n, v, hline, hd1, hd2⟩ := ih c l hlc
      refine ⟨d, n, v, hline, le_trans (Nat.le_succ depth) hd1, ?_⟩
      have hlt := card_sdiff_cons_lt g path r hcond.1 hcond.2
      omega

theorem rootCount_append (a b : List OutputLine) (r : Release) :
    rootCount (a ++ b) r = rootCount a r + rootCount b r :=
  List.countP_append _ _ _

theorem rootCount_eq_zero_of_forall {out : List OutputLine} {r : Release}
    (h : ∀ l ∈ out, l ≠ rootLine r) : rootCount out r = 0 := by
  refine List.countP_eq_zero.mpr ?_
  intro l hl
  simpa using h l hl

/-- The lines of the detail block of a vulnerability are `blank` or `attr`
lines only. -/
theorem vulnDetailLines_shape (v : Vulnerability) :
    ∀ l ∈ vulnDetailLines v,
      l = .blank ∨ ∃ c lab s, l = .attr c lab s := by
  intro l hl
  unfold vulnDetailLines at hl
  simp only [printAttr, List.mem_cons] at hl
  rcases hl with h | h | h | h | h | hl
  · exact Or.inl h
  · exact Or.inr ⟨_, _, _, h⟩
  · exact Or.inr ⟨_, _, _, h⟩
  · exact Or.inr ⟨_, _, _, h⟩
  · exact Or.inr ⟨_, _, _, h⟩
  rcases List.mem_append.mp hl with h | h
  · cases hid : v.advisory.id.idUrl with
    | some u => rw [hid] at h; simp only [List.mem_singleton] at h
                exact Or.inr ⟨_, _, _, h⟩
    | none =>
      rw [hid] at h
      cases hu : v.advisory.url with
      | some u => rw [hu] at h; simp only [List.mem_singleton] at h
                  exact Or.inr ⟨_, _, _, h⟩
      | none => rw [hu] at h; simp at h
  · rcases List.mem_cons.mp h with h | h
    · exact Or.inr ⟨_, _, _, h⟩
    · simp only [List.mem_singleton] at h
      exact Or.inr ⟨_, _, _, h⟩

theorem setInsert_mem_self (s : List Release) (r : Release) :
    r ∈ (setInsert s r).1 := by
  unfold setInsert
  by_cases h : r ∈ s <;> simp [h]

theorem setInsert_subset (s : List Release) (r : Release) :
    s ⊆ (setInsert s r).1 := by
  unfold setInsert
  by_cases h : r ∈ s <;> simp [h]

/-- Tree rendering is gated: a release already displayed is skipped with
no output and no state change at all. -/
theorem printTree_already (st : PState) (c : Color) (p : Package) (g : Graph)
    (h : p.release ∈ st.displayed) :
    printTree st c p g = ([], some st) := by
  unfold printTree setInsert
  simp [h]

/-- With tree display off (whether quietly configured off or not), the
render is skipped but the release is still inserted into the displayed
set: the membership test precedes the configuration test in the source. -/
theorem printTree_noRender (st : PState) (c : Color) (p : Package)
    (g : Graph) (h : st.config.showTree.getD true = false) :
    printTree st c p g =
      ([], some ⟨(setInsert st.displayed p.release).1, st.config⟩) := by
  unfold printTree
  by_cases hm : p.release ∈ st.displayed <;> simp [setInsert, hm, h]

/-- The rendering branch: fresh release, tree display on, node present. -/
theorem printTree_render (st : PState) (c : Color) (p : Package) (g : Graph)
    (hm : p.release ∉ st.displayed)
    (hst : st.config.showTree.getD true = true)
    (hnode : p.release ∈ graphNodes g) :
    printTree st c p g =
      (.treeHeader c :: renderNode g [] 0 p.release,
        some ⟨p.release :: st.displayed, st.config⟩) := by
  unfold printTree
  simp [setInsert, hm, hst, hnode]

/-- The contract-violation branch: a fresh release with no node in the
graph panics after the header has been flushed. -/
theorem printTree_panic (st : PState) (c : Color) (p : Package) (g : Graph)
    (hm : p.release ∉ st.displayed)
    (hst : st.config.showTree.getD true = true)
    (hnode : p.release ∉ graphNodes g) :
    printTree st c p g = ([.treeHeader c], none) := by
  unfold printTree
  simp [setInsert, hm, hst, hnode]

/-- Whenever `print_tree` returns (rather than panicking), the resulting
displayed set is the old one with the package's release inserted. -/
theorem printTree_state_some (st : PState) (c : Color) (p : Package)
    (g : Graph) (st' : PState) (h : (printTree st c p g).2 = some st') :
    st' = ⟨(setInsert st.displayed p.release).1, st.config⟩ := by
  by_cases hm : p.release ∈ st.displayed
  · rw [printTree_already st c p g hm] at h
    simpa [setInsert, hm] using (Option.some.inj h).symm
  · cases hst : st.config.showTree.getD true
    · rw [printTree_noRender st c p g hst] at h
      exact (Option.some.inj h).symm
    · by_cases hnode : p.release ∈ graphNodes g
      · rw [printTree_render st c p g hm hst hnode] at h
        simpa [setInsert, hm] using (Option.some.inj h).symm
      · rw [printTree_panic st c p g hm hst hnode] at h
        simp at h

/-- Every line of a `print_tree` output is a tree header or a tree line. -/
theorem printTree_lines (st : PState) (c : Color) (p : Package) (g : Graph) :
    ∀ l ∈ (printTree st c p g).1,
      l = .treeHeader c ∨ ∃ d n ver, l = .treeLine d n ver := by
  intro l hl
  by_cases hm : p.release ∈ st.displayed
  · rw [printTree_already st c p g hm] at hl
    simp at hl
  · cases hst : st.config.showTree.getD true
    · rw [printTree_noRender st c p g hst] at hl
      simp at hl
    · by_cases hnode : p.release ∈ graphNodes g
      · rw [printTree_render st c p g hm hst hnode] at hl
        rcases List.mem_cons.mp hl with h | h
        · exact Or.inl h
        · obtain ⟨d, n, ver, hline, _, _⟩ := renderNode_lines g [] 0 p.release l h
          exact Or.inr ⟨d, n, ver, hline⟩
      · rw [printTree_panic st c p g hm hst hnode] at hl
        simp at hl
        exact Or.inl hl

theorem beq_rootLine_self (p r : Release) :
    (OutputLine.treeLine 0 p.name p.version == rootLine r) = decide (p = r) := by
  rcases eq_or_ne p r with h | h
  · subst h
    simp [rootLine]
  · have h2 : ¬(p.name = r.name ∧ p.version = r.version) := by
      intro hc
      apply h
      cases p
      cases r
      simp_all
    simp [rootLine, OutputLine.treeLine.injEq, h, h2]

theorem beq_rootLine_deep (d : Nat) (n ver : String) (r : Release)
    (hd : d ≠ 0) :
    (OutputLine.treeLine d n ver == rootLine r) = false := by
  simp [rootLine, OutputLine.treeLine.injEq, hd]

/-- A single render of package `p`'s tree contains the depth-0 root line
of release `r` exactly once when `r` is `p`, and never otherwise. -/
theorem rootCount_renderNode (g : Graph) (p r : Release) :
    rootCount (renderNode g [] 0 p) r = if p = r then 1 else 0 := by
  by_cases hnode : p ∈ graphNodes g
  · rw [renderNode_eq_of_not_mem g [] 0 p (by simp)]
    unfold rootCount
    rw [List.countP_cons]
    have htail :
        (List.countP (fun l => l == rootLine r)
          (List.foldr (fun c acc => renderNode g [p] (0 + 1) c ++ acc) []
            (childrenOf g p))) = 0 := by
      refine List.countP_eq_zero.mpr ?_
      intro l hl
      obtain ⟨c, _hc, hlc⟩ := mem_foldr_append.mp hl
      obtain ⟨d, n, ver, hline, hd1, _⟩ := renderNode_lines g [p] (0 + 1) c l hlc
      subst hline
      simp [beq_rootLine_deep d n ver r (by omega)]
    rw [htail, beq_rootLine_self p r]
    by_cases h : p = r <;> simp [h]
  · rw [renderNode.eq_def, dif_pos (Or.inr hnode)]
    unfold rootCount
    rw [List.countP_cons, beq_rootLine_self p r]
    by_cases h : p = r <;> simp [h]

/-- The output of one `print_tree` call contains the root line for `r` at
most once, and only when `r` is this very package's release and was not
yet displayed. -/
theorem rootCount_printTree_le (st : PState) (c : Color) (p : Package)
    (g : Graph) (r : Release) :
    rootCount (printTree st c p g).1 r ≤
      if p.release = r ∧ r ∉ st.displayed then 1 else 0 := by
  by_cases hm : p.release ∈ st.displayed
  · rw [printTree_already st c p g hm]
    have h0 : rootCount [] r = 0 := rfl
    rw [h0]
    split_ifs <;> omega
  · cases hst : st.config.showTree.getD true
    · rw [printTree_noRender st c p g hst]
      have h0 : rootCount [] r = 0 := rfl
      rw [h0]
      split_ifs <;> omega
    · by_cases hnode : p.release ∈ graphNodes g
      · rw [printTree_render st c p g hm hst hnode]
        have hhd : (OutputLine.treeHeader c == rootLine r) = false := by
          simp [rootLine]
        have hcount :
            rootCount (OutputLine.treeHeader c :: renderNode g [] 0 p.release) r =
              rootCount (renderNode g [] 0 p.release) r := by
          unfold rootCount
          rw [List.countP_cons, hhd]
          simp
        rw [hcount, rootCount_renderNode]
        by_cases h1 : p.release = r
        · rw [if_pos h1, if_pos ⟨h1, h1 ▸ hm⟩]
        · rw [if_neg h1, if_neg (fun hc => h1 hc.1)]
      · rw [printTree_panic st c p g hm hst hnode]
        have h0 : rootCount [OutputLine.treeHeader c] r = 0 := by
          refine rootCount_eq_zero_of_forall ?_
          intro l hl
          simp only [List.mem_singleton] at hl
          subst hl
          simp [rootLine]
        rw [h0]
        split_ifs <;> omega

theorem printVulnerability_out (st : PState) (v : Vulnerability) (g : Graph) :
    (printVulnerability st v g).1 =
      vulnDetailLines v ++ (printTree st .red v.package g).1 := rfl

theorem printVulnerability_state (st : PState) (v : Vulnerability) (g : Graph) :
    (printVulnerability st v g).2 = (printTree st .red v.package g).2 := rfl

theorem rootCount_vulnDetailLines (v : Vulnerability) (r : Release) :
    rootCount (vulnDetailLines v) r = 0 := by
  refine rootCount_eq_zero_of_forall ?_
  intro l hl
  rcases vulnDetailLines_shape v l hl with h | ⟨c, lab, s, h⟩ <;>
    subst h <;> simp [rootLine]

theorem printVulnList_nil (g : Graph) (st : PState) :
    printVulnList g st [] = ([], some st) := rfl

theorem printVulnList_cons_none (g : Graph) (st : PState) (v : Vulnerability)
    (rest : List Vulnerability) (h : (printVulnerability st v g).2 = none) :
    printVulnList g st (v :: rest) = ((printVulnerability st v g).1, none) := by
  conv_lhs => unfold printVulnList
  rw [h]

theorem printVulnList_cons_some (g : Graph) (st stm : PState)
    (v : Vulnerability) (rest : List Vulnerability)
    (h : (printVulnerability st v g).2 = some stm) :
    printVulnList g st (v :: rest) =
      ((printVulnerability st v g).1 ++ (printVulnList g stm rest).1,
        (printVulnList g stm rest).2) := by
  conv_lhs => unfold printVulnList
  rw [h]

theorem printVulnList_out_cons_none (g : Graph) (st : PState)
    (v : Vulnerability) (rest : List Vulnerability)
    (h : (printVulnerability st v g).2 = none) :
    (printVulnList g st (v :: rest)).1 = (printVulnerability st v g).1 := by
  rw [printVulnList_cons_none g st v rest h]

theorem printVulnList_out_cons_some (g : Graph) (st stm : PState)
    (v : Vulnerability) (rest : List Vulnerability)
    (h : (printVulnerability st v g).2 = some stm) :
    (printVulnList g st (v :: rest)).1 =
      (printVulnerability st v g).1 ++ (printVulnList g stm rest).1 := by
  rw [printVulnList_cons_some g st stm v rest h]

theorem printVulnList_state_cons_none (g : Graph) (st : PState)
    (v : Vulnerability) (rest : List Vulnerability)
    (h : (printVulnerability st v g).2 = none) :
    (printVulnList g st (v :: rest)).2 = none := by
  rw [printVulnList_cons_none g st v rest h]

theorem printVulnList_state_cons_some (g : Graph) (st stm : PState)
    (v : Vulnerability) (rest : List Vulnerability)
    (h : (printVulnerability st v g).2 = some stm) :
    (printVulnList g st (v :: rest)).2 = (printVulnList g stm rest).2 := by
  rw [printVulnList_cons_some g st stm v rest h]

/-- The loop over vulnerabilities only grows the displayed set and never
touches the configuration. -/
theorem printVulnList_state_mono (g : Graph) (vs : List Vulnerability) :
    ∀ (st st' : PState), (printVulnList g st vs).2 = some st' →
      st.displayed ⊆ st'.displayed ∧ st'.config = st.config := by
  induction vs with
  | nil =>
    intro st st' h
    rw [printVulnList_nil] at h
    simp only [Option.some.injEq] at h
    subst h
    exact ⟨fun x hx => hx, rfl⟩
  | cons v rest ih =>
    intro st st' h
    cases hres : (printVulnerability st v g).2 with
    | none =>
      rw [printVulnList_state_cons_none g st v rest hres] at h
      simp at h
    | some stm =>
      rw [printVulnList_state_cons_some g st stm v rest hres] at h
      obtain ⟨hsub, hcfg⟩ := ih stm st' h
      have hres' : (printTree st Color.red v.package g).2 = some stm := by
        rw [← printVulnerability_state]
        exact hres
      have hstm := printTree_state_some st .red v.package g stm hres'
      constructor
      · intro x hx
        apply hsub
        rw [hstm]
        exact setInsert_subset _ _ hx
      · rw [hcfg, hstm]

/-- A release already recorded as displayed never gets its tree root line
printed again by the vulnerability loop. -/
theorem printVulnList_rootCount_zero (g : Graph) (vs : List Vulnerability) :
    ∀ (st : PState) (r : Release), r ∈ st.displayed →
      rootCount (printVulnList g st vs).1 r = 0 := by
  induction vs with
  | nil =>
    intro st r _
    rw [printVulnList_nil]
    rfl
  | cons v rest ih =>
    intro st r hr
    have hle := rootCount_printTree_le st .red v.package g r
    rw [if_neg (fun hc => hc.2 hr)] at hle
    have htree : rootCount (printTree st .red v.package g).1 r = 0 :=
      Nat.le_zero.mp hle
    have hpv : rootCount (printVulnerability st v g).1 r = 0 := by
      rw [printVulnerability_out, rootCount_append,
        rootCount_vulnDetailLines, htree]
    cases hres : (printVulnerability st v g).2 with
    | none =>
      rw [printVulnList_out_cons_none g st v rest hres, hpv]
    | some stm =>
      rw [printVulnList_out_cons_some g st stm v rest hres,
        rootCount_append, hpv]
      have hres' : (printTree st Color.red v.package g).2 = some stm := by
        rw [← printVulnerability_state]
        exact hres
      have hstm := printTree_state_some st .red v.package g stm hres'
      have hrm : r ∈ stm.displayed := by
        rw [hstm]
        exact setInsert_subset _ _ hr
      rw [ih stm r hrm]

/-- Across one whole vulnerability loop, the tree root line of any given
release is printed at most once. -/
theorem printVulnList_rootCount_le_one (g : Graph) (vs : List Vulnerability) :
    ∀ (st : PState) (r : Release),
      rootCount (printVulnList g st vs).1 r ≤ 1 := by
  induction vs with
  | nil =>
    intro st r
    rw [printVulnList_nil]
    exact Nat.zero_le 1
  | cons v rest ih =>
    intro st r
    have hle := rootCount_printTree_le st .red v.package g r
    have hpv : rootCount (printVulnerability st v g).1 r ≤
        if v.package.release = r ∧ r ∉ st.displayed then 1 else 0 := by
      rw [printVulnerability_out, rootCount_append, rootCount_vulnDetailLines]
      omega
    cases hres : (printVulnerability st v g).2 with
    | none =>
      rw [printVulnList_out_cons_none g st v rest hres]
      split_ifs at hpv <;> omega
    | some stm =>
      rw [printVulnList_out_cons_some g st stm v rest hres, rootCount_append]
      have hres' : (printTree st Color.red v.package g).2 = some stm := by
        rw [← printVulnerability_state]
        exact hres
      have hstm := printTree_state_some st .red v.package g stm hres'
      by_cases hc : v.package.release = r ∧ r ∉ st.displayed
      · -- the head may print the root once; afterwards r is displayed,
        -- so the tail prints it zero times
        have hrm : r ∈ stm.displayed := by
          rw [hstm, ← hc.1]
          exact setInsert_mem_self _ _
        rw [printVulnList_rootCount_zero g rest stm r hrm]
        rw [if_pos hc] at hpv
        omega
      · rw [if_neg hc] at hpv
        have := ih stm r
        omega

theorem printReport_json (bg : Lockfile → Option Graph) (st : PState)
    (report : Report) (lockfile : Lockfile)
    (h : st.config.format = OutputFormat.json) :
    printReport bg st report lockfile = ([.json report], some st) := by
  unfold printReport
  rw [if_pos h]

theorem printReport_graphPanic (bg : Lockfile → Option Graph) (st : PState)
    (report : Report) (lockfile : Lockfile)
    (h1 : st.config.format ≠ OutputFormat.json) (h2 : bg lockfile = none) :
    printReport bg st report lockfile = (statusLines report, none) := by
  unfold printReport
  rw [if_neg h1, h2]

theorem printReport_vulnPanic (bg : Lockfile → Option Graph) (st : PState)
    (report : Report) (lockfile : Lockfile) (g : Graph)
    (h1 : st.config.format ≠ OutputFormat.json) (h2 : bg lockfile = some g)
    (h3 : (printVulnList g st report.vulnerabilities.list).2 = none) :
    printReport bg st report lockfile =
      (statusLines report ++ (printVulnList g st report.vulnerabilities.list).1,
        none) := by
  unfold printReport
  rw [if_neg h1]
  simp only [h2, h3]

theorem printReport_ok (bg : Lockfile → Option Graph) (st : PState)
    (report : Report) (lockfile : Lockfile) (g : Graph) (st' : PState)
    (h1 : st.config.format ≠ OutputFormat.json) (h2 : bg lockfile = some g)
    (h3 : (printVulnList g st report.vulnerabilities.list).2 = some st') :
    printReport bg st report lockfile =
      (statusLines report ++ (printVulnList g st report.vulnerabilities.list).1
        ++ warningLines report ++ summaryLines report, some st') := by
  unfold printReport
  rw [if_neg h1]
  simp only [h2, h3]

theorem printWarning_shape (w : Warning) :
    ∀ l ∈ printWarning w, l = .blank ∨ ∃ c lab s, l = .attr c lab s := by
  intro l hl
  unfold printWarning at hl
  simp only [printAttr, List.mem_cons] at hl
  rcases hl with h | h | h | h
  · exact Or.inl h
  · exact Or.inr ⟨_, _, _, h⟩
  · exact Or.inr ⟨_, _, _, h⟩
  · cases hu : w.url with
    | some u =>
      rw [hu] at h
      simp only [List.mem_singleton] at h
      exact Or.inr ⟨_, _, _, h⟩
    | none =>
      rw [hu] at h
      simp at h

theorem warningLines_shape (report : Report) :
    ∀ l ∈ warningLines report,
      l = .blank ∨ (∃ s, l = .statusWarn s) ∨ ∃ c lab s, l = .attr c lab s := by
  intro l hl
  unfold warningLines at hl
  split at hl
  · simp at hl
  · rcases List.mem_cons.mp hl with h | hl
    · exact Or.inl h
    rcases List.mem_cons.mp hl with h | hl
    · exact Or.inr (Or.inl ⟨_, h⟩)
    · rw [List.mem_flatten] at hl
      obtain ⟨block, hblock, hlb⟩ := hl
      obtain ⟨w, _hw, hwb⟩ := List.mem_map.mp hblock
      subst hwb
      rcases printWarning_shape w l hlb with h | ⟨c, lab, s, h⟩
      · exact Or.inl h
      · exact Or.inr (Or.inr ⟨c, lab, s, h⟩)

theorem rootCount_statusLines (report : Report) (r : Release) :
    rootCount (statusLines report) r = 0 := by
  refine rootCount_eq_zero_of_forall ?_
  intro l hl
  unfold statusLines at hl
  split at hl <;> simp only [List.mem_singleton] at hl <;> subst hl <;>
    simp [rootLine]

theorem rootCount_warningLines (report : Report) (r : Release) :
    rootCount (warningLines report) r = 0 := by
  refine rootCount_eq_zero_of_forall ?_
  intro l hl
  rcases warningLines_shape report l hl with h | ⟨s, h⟩ | ⟨c, lab, s, h⟩ <;>
    subst h <;> simp [rootLine]

theorem rootCount_summaryLines (report : Report) (r : Release) :
    rootCount (summaryLines report) r = 0 := by
  refine rootCount_eq_zero_of_forall ?_
  intro l hl
  unfold summaryLines at hl
  split at hl
  · rcases List.mem_cons.mp hl with h | hl
    · subst h; simp [rootLine]
    · simp only [List.mem_singleton] at hl
      subst hl; simp [rootLine]
  · simp at hl

theorem printVulnerability_no_statusErr (st : PState) (v : Vulnerability)
    (g : Graph) :
    ∀ l ∈ (printVulnerability st v g).1, ∀ s, l ≠ .statusErr s := by
  intro l hl s
  rw [printVulnerability_out] at hl
  rcases List.mem_append.mp hl with h | h
  · rcases vulnDetailLines_shape v l h with h' | ⟨c, lab, s', h'⟩ <;> subst h' <;>
      simp
  · rcases printTree_lines st .red v.package g l h with h' | ⟨d, n, ver, h'⟩ <;>
      subst h' <;> simp

theorem printVulnList_no_statusErr (g : Graph) (vs : List Vulnerability) :
    ∀ (st : PState), ∀ l ∈ (printVulnList g st vs).1, ∀ s, l ≠ .statusErr s := by
  induction vs with
  | nil =>
    intro st l hl
    rw [printVulnList_nil] at hl
    simp at hl
  | cons v rest ih =>
    intro st l hl s
    cases hres : (printVulnerability st v g).2 with
    | none =>
      rw [printVulnList_out_cons_none g st v rest hres] at hl
      exact printVulnerability_no_statusErr st v g l hl s
    | some stm =>
      rw [printVulnList_out_cons_some g st stm v rest hres] at hl
      rcases List.mem_append.mp hl with h | h
      · exact printVulnerability_no_statusErr st v g l h s
      · exact ih stm l h s

theorem urlLines_printTree (st : PState) (c : Color) (p : Package) (g : Graph) :
    urlLines (printTree st c p g).1 = [] := by
  unfold urlLines
  rw [List.filter_eq_nil_iff]
  intro l hl
  rcases printTree_lines st c p g l hl with h | ⟨d, n, ver, h⟩ <;> subst h <;> simp

theorem urlLines_vulnDetail_id (v : Vulnerability) (u : String)
    (h : v.advisory.id.idUrl = some u) :
    urlLines (vulnDetailLines v) = [.attr .red "URL:     " u] := by
  unfold vulnDetailLines urlLines
  simp only [h]
  simp [printAttr]

theorem urlLines_vulnDetail_advisory (v : Vulnerability) (u : String)
    (h1 : v.advisory.id.idUrl = none) (h2 : v.advisory.url = some u) :
    urlLines (vulnDetailLines v) = [.attr .red "URL:     " u] := by
  unfold vulnDetailLines urlLines
  simp only [h1, h2]
  simp [printAttr]

theorem urlLines_vulnDetail_nil (v : Vulnerability)
    (h1 : v.advisory.id.idUrl = none) (h2 : v.advisory.url = none) :
    urlLines (vulnDetailLines v) = [] := by
  unfold vulnDetailLines urlLines
  simp only [h1, h2]
  simp [printAttr]

theorem urlLines_printVulnerability_id (st : PState) (v : Vulnerability)
    (g : Graph) (u : String) (h : v.advisory.id.idUrl = some u) :
    urlLines (printVulnerability st v g).1 = [.attr .red "URL:     " u] := by
  rw [printVulnerability_out]
  unfold urlLines
  rw [List.filter_append]
  have h1 := urlLines_vulnDetail_id v u h
  have h2 := urlLines_printTree st .red v.package g
  unfold urlLines at h1 h2
  rw [h1, h2, List.append_nil]

theorem urlLines_printVulnerability_advisory (st : PState) (v : Vulnerability)
    (g : Graph) (u : String) (h1 : v.advisory.id.idUrl = none)
    (h2 : v.advisory.url = some u) :
    urlLines (printVulnerability st v g).1 = [.attr .red "URL:     " u] := by
  rw [printVulnerability_out]
  unfold urlLines
  rw [List.filter_append]
  have ha := urlLines_vulnDetail_advisory v u h1 h2
  have hb := urlLines_printTree st .red v.package g
  unfold urlLines at ha hb
  rw [ha, hb, List.append_nil]

theorem urlLines_printVulnerability_nil (st : PState) (v : Vulnerability)
    (g : Graph) (h1 : v.advisory.id.idUrl = none) (h2 : v.advisory.url = none) :
    urlLines (printVulnerability st v g).1 = [] := by
  rw [printVulnerability_out]
  unfold urlLines
  rw [List.filter_append]
  have ha := urlLines_vulnDetail_nil v h1 h2
  have hb := urlLines_printTree st .red v.package g
  unfold urlLines at ha hb
  rw [ha, hb, List.append_nil]

theorem filter_not_tree_of_shape {out : List OutputLine}
    (h : ∀ l ∈ out, isTreeOutput l = false) :
    out.filter (fun l => !isTreeOutput l) = out := by
  refine List.filter_eq_self.mpr ?_
  intro l hl
  rw [h l hl]
  rfl

theorem filter_not_tree_printTree (st : PState) (c : Color) (p : Package)
    (g : Graph) :
    (printTree st c p g).1.filter (fun l => !isTreeOutput l) = [] := by
  rw [List.filter_eq_nil_iff]
  intro l hl
  rcases printTree_lines st c p g l hl with h | ⟨d, n, ver, h⟩ <;> subst h <;>
    simp [isTreeOutput]

theorem vulnDetailLines_not_tree (v : Vulnerability) :
    ∀ l ∈ vulnDetailLines v, isTreeOutput l = false := by
  intro l hl
  rcases vulnDetailLines_shape v l hl with h | ⟨c, lab, s, h⟩ <;> subst h <;>
    rfl

theorem statusLines_not_tree (report : Report) :
    ∀ l ∈ statusLines report, isTreeOutput l = false := by
  intro l hl
  unfold statusLines at hl
  split at hl <;> simp only [List.mem_singleton] at hl <;> subst hl <;> rfl

theorem warningLines_not_tree (report : Report) :
    ∀ l ∈ warningLines report, isTreeOutput l = false := by
  intro l hl
  rcases warningLines_shape report l hl with h | ⟨s, h⟩ | ⟨c, lab, s, h⟩ <;>
    subst h <;> rfl

theorem summaryLines_not_tree (report : Report) :
    ∀ l ∈ summaryLines report, isTreeOutput l = false := by
  intro l hl
  unfold summaryLines at hl
  split at hl
  · rcases List.mem_cons.mp hl with h | hl
    · subst h; rfl
    · simp only [List.mem_singleton] at hl
      subst hl; rfl
  · simp at hl

/-- Turning `show_tree` off changes the vulnerability loop's output by
exactly erasing all tree headers and tree lines, and leads both runs to
the same displayed set. -/
theorem printVulnList_showTree_filter (g : Graph) (vs : List Vulnerability)
    (hwf : ∀ v ∈ vs, v.package.release ∈ graphNodes g) :
    ∀ (d : List Release) (cfg : OutputConfig), ∃ d' : List Release,
      (printVulnList g ⟨d, { cfg with showTree := some false }⟩ vs).1 =
        (printVulnList g ⟨d, { cfg with showTree := some true }⟩ vs).1.filter
          (fun l => !isTreeOutput l) ∧
      (printVulnList g ⟨d, { cfg with showTree := some false }⟩ vs).2 =
        some ⟨d', { cfg with showTree := some false }⟩ ∧
      (printVulnList g ⟨d, { cfg with showTree := some true }⟩ vs).2 =
        some ⟨d', { cfg with showTree := some true }⟩ := by
  induction vs with
  | nil =>
    intro d cfg
    refine ⟨d, ?_, ?_, ?_⟩ <;> simp [printVulnList_nil]
  | cons v rest ih =>
    intro d cfg
    have hnode := hwf v (List.mem_cons_self v rest)
    have hwfrest : ∀ w ∈ rest, w.package.release ∈ graphNodes g := by
      intro w hw
      exact hwf w (List.mem_cons_of_mem v hw)
    set stOff : PState := ⟨d, { cfg with showTree := some false }⟩ with hstOff
    set stOn : PState := ⟨d, { cfg with showTree := some true }⟩ with hstOn
    have htOff : printTree stOff .red v.package g =
        ([], some ⟨(setInsert d v.package.release).1,
          { cfg with showTree := some false }⟩) :=
      printTree_noRender stOff .red v.package g rfl
    have htOff1 : (printTree stOff .red v.package g).1 = [] := by rw [htOff]
    have hvOff2 : (printVulnerability stOff v g).2 =
        some ⟨(setInsert d v.package.release).1,
          { cfg with showTree := some false }⟩ := by
      rw [printVulnerability_state, htOff]
    have hdet := filter_not_tree_of_shape (vulnDetailLines_not_tree v)
    by_cases hm : v.package.release ∈ d
    · have hins : (setInsert d v.package.release).1 = d := by
        unfold setInsert
        rw [if_pos hm]
      have htOn : printTree stOn .red v.package g = ([], some stOn) :=
        printTree_already stOn .red v.package g hm
      have htOn1 : (printTree stOn .red v.package g).1 = [] := by rw [htOn]
      have hvOn2 : (printVulnerability stOn v g).2 = some stOn := by
        rw [printVulnerability_state, htOn]
      obtain ⟨d', hoff1, hoff2, hon2⟩ := ih hwfrest d cfg
      refine ⟨d', ?_, ?_, ?_⟩
      · rw [printVulnList_out_cons_some g stOff _ v rest hvOff2,
          printVulnList_out_cons_some g stOn stOn v rest hvOn2,
          printVulnerability_out, printVulnerability_out, htOff1, htOn1,
          List.append_nil, hins, hoff1,
          List.filter_append, hdet]
      · rw [printVulnList_state_cons_some g stOff _ v rest hvOff2, hins]
        exact hoff2
      · rw [printVulnList_state_cons_some g stOn stOn v rest hvOn2]
        exact hon2
    · have hins : (setInsert d v.package.release).1 =
          v.package.release :: d := by
        unfold setInsert
        rw [if_neg hm]
      have htOn : printTree stOn .red v.package g =
          (.treeHeader .red :: renderNode g [] 0 v.package.release,
            some ⟨v.package.release :: d,
              { cfg with showTree := some true }⟩) :=
        printTree_render stOn .red v.package g hm rfl hnode
      have htOn1 : (printTree stOn .red v.package g).1 =
          .treeHeader .red :: renderNode g [] 0 v.package.release := by
        rw [htOn]
      have hvOn2 : (printVulnerability stOn v g).2 =
          some ⟨v.package.release :: d, { cfg with showTree := some true }⟩ := by
        rw [printVulnerability_state, htOn]
      have htree : (OutputLine.treeHeader Color.red ::
          renderNode g [] 0 v.package.release).filter
            (fun l => !isTreeOutput l) = [] := by
        have h0 := filter_not_tree_printTree stOn .red v.package g
        rw [htOn1] at h0
        exact h0
      obtain ⟨d', hoff1, hoff2, hon2⟩ := ih hwfrest (v.package.release :: d) cfg
      refine ⟨d', ?_, ?_, ?_⟩
      · rw [printVulnList_out_cons_some g stOff _ v rest hvOff2,
          printVulnList_out_cons_some g stOn _ v rest hvOn2,
          printVulnerability_out, printVulnerability_out, htOff1, htOn1,
          List.append_nil, hins, hoff1, List.filter_append,
          List.filter_append, hdet, htree, List.append_nil]
      · rw [printVulnList_state_cons_some g stOff _ v rest hvOff2, hins]
        exact hoff2
      · rw [printVulnList_state_cons_some g stOn _ v rest hvOn2]
        exact hon2

/-! ### The claims -/

/-- C2: with the JSON output format, `print_report` emits exactly the
serialization of the report and returns at once, leaving the presenter
state untouched — no status line, no graph building, no vulnerability or
warning blocks, no tree output. -/
theorem claim_C2 (bg : Lockfile → Option Graph) (st : PState)
    (report : Report) (lockfile : Lockfile)
    (h : st.config.format = OutputFormat.json) :
    printReport bg st report lockfile = ([.json report], some st) :=
  printReport_json bg st report lockfile h

theorem claim_C2_witness :
    printReport failingGraphFn (Presenter.new cfgJson) emptyReport
        emptyLockfile =
      ([.json emptyReport], some (Presenter.new cfgJson)) :=
  claim_C2 failingGraphFn (Presenter.new cfgJson) emptyReport emptyLockfile rfl

/-- C9: `before_report` leaves the presenter state untouched, prints
nothing when quiet, and otherwise prints exactly one status line carrying
the lockfile's package count. -/
theorem claim_C9 (st : PState) (lockfilePath : String) (lockfile : Lockfile) :
    (beforeReport st lockfilePath lockfile).1 = st ∧
    (st.config.quiet = true → (beforeReport st lockfilePath lockfile).2 = []) ∧
    (st.config.quiet = false → (beforeReport st lockfilePath lockfile).2 =
      [.statusOk "Scanning"
        (lockfilePath ++ " for vulnerabilities (" ++
          toString lockfile.packages.length ++ " crate dependencies)")]) := by
  refine ⟨rfl, ?_, ?_⟩ <;> intro h <;> unfold beforeReport <;> simp [h]

theorem claim_C9_witness :
    (beforeReport (Presenter.new cfgHuman) "Cargo.lock" emptyLockfile).1 =
      Presenter.new cfgHuman ∧
    (beforeReport (Presenter.new cfgHuman) "Cargo.lock" emptyLockfile).2 =
      [.statusOk "Scanning"
        "Cargo.lock for vulnerabilities (0 crate dependencies)"] :=
  ⟨(claim_C9 (Presenter.new cfgHuman) "Cargo.lock" emptyLockfile).1,
   (claim_C9 (Presenter.new cfgHuman) "Cargo.lock" emptyLockfile).2.2 rfl⟩

/-- C3: the URL line of a vulnerability block prefers the URL derived from
the advisory id; the advisory's free-form URL is printed only when no
id-derived URL exists; and no URL line appears when neither exists. -/
theorem claim_C3 (st : PState) (v : Vulnerability) (g : Graph) :
    (∀ u, v.advisory.id.idUrl = some u →
      urlLines (printVulnerability st v g).1 = [.attr .red "URL:     " u]) ∧
    (∀ u, v.advisory.id.idUrl = none → v.advisory.url = some u →
      urlLines (printVulnerability st v g).1 = [.attr .red "URL:     " u]) ∧
    (v.advisory.id.idUrl = none → v.advisory.url = none →
      urlLines (printVulnerability st v g).1 = []) :=
  ⟨fun u h => urlLines_printVulnerability_id st v g u h,
   fun u h1 h2 => urlLines_printVulnerability_advisory st v g u h1 h2,
   fun h1 h2 => urlLines_printVulnerability_nil st v g h1 h2⟩

theorem claim_C3_witness :
    urlLines (printVulnerability (Presenter.new cfgHuman) vulnBoth
        diamondG).1 =
      [.attr .red "URL:     "
        "https://rustsec.org/advisories/RUSTSEC-2021-0003"] :=
  (claim_C3 (Presenter.new cfgHuman) vulnBoth diamondG).1
    "https://rustsec.org/advisories/RUSTSEC-2021-0003" rfl

/-- C4, counterexample: for a vulnerability carrying both an
advisory-supplied free-form URL and an id-derived URL, the printed URL
line is the id-derived one, not the advisory-supplied one — the claimed
preference order is inverted in the code. -/
theorem claim_C4_counterexample :
    vulnBoth.advisory.url = some "https://example.com/advisory" ∧
    vulnBoth.advisory.id.idUrl =
      some "https://rustsec.org/advisories/RUSTSEC-2021-0003" ∧
    urlLines (printVulnerability stBoth vulnBoth []).1 =
      [.attr .red "URL:     "
        "https://rustsec.org/advisories/RUSTSEC-2021-0003"] ∧
    urlLines (printVulnerability stBoth vulnBoth []).1 ≠
      [.attr .red "URL:     " "https://example.com/advisory"] := by
  refine ⟨rfl, rfl, ?_, ?_⟩ <;> decide

/-- C4, amended: when both an advisory-supplied URL and an id-derived URL
are present, the detail block prints the id-derived URL; the
advisory-supplied URL is only a fallback when the id yields none. -/
theorem claim_C4_amended (st : PState) (v : Vulnerability) (g : Graph)
    (u1 u2 : String) (h1 : v.advisory.id.idUrl = some u1)
    (h2 : v.advisory.url = some u2) :
    urlLines (printVulnerability st v g).1 = [.attr .red "URL:     " u1] :=
  urlLines_printVulnerability_id st v g u1 h1

theorem claim_C4_witness :
    urlLines (printVulnerability (Presenter.new cfgHuman) vulnBoth []).1 =
      [.attr .red "URL:     "
        "https://rustsec.org/advisories/RUSTSEC-2021-0003"] :=
  claim_C4_amended (Presenter.new cfgHuman) vulnBoth [] _ _ rfl rfl

/-- C5: rendering the diamond rooted at `d-crate` terminates (the renderer
is a total function) and prints every node of the diamond; a node already
on the current path is printed as a leaf with no recursion; and every
printed line's depth is bounded by the starting depth plus the number of
graph nodes off the path (the longest simple path). -/
theorem claim_C5 :
    (OutputLine.treeLine 0 relD.name relD.version ∈
        renderNode diamondG [] 0 relD ∧
      OutputLine.treeLine 1 relB.name relB.version ∈
        renderNode diamondG [] 0 relD ∧
      OutputLine.treeLine 1 relC.name relC.version ∈
        renderNode diamondG [] 0 relD ∧
      OutputLine.treeLine 2 relA.name relA.version ∈
        renderNode diamondG [] 0 relD) ∧
    (∀ (g : Graph) (path : List Release) (depth : Nat) (r : Release),
      r ∈ path →
        renderNode g path depth r = [.treeLine depth r.name r.version]) ∧
    (∀ (g : Graph) (path : List Release) (depth : Nat) (r : Release),
      ∀ l ∈ renderNode g path depth r, ∃ d n ver, l = .treeLine d n ver ∧
        d ≤ depth + ((graphNodes g).toFinset \ path.toFinset).card) := by
  refine ⟨⟨?_, ?_, ?_, ?_⟩, renderNode_leaf, ?_⟩
  · exact renderNode_head diamondG [] 0 relD
  · exact renderNode_child_subset diamondG [] 0 relD relB (by decide)
      (by decide) _ (renderNode_head diamondG [relD] 1 relB)
  · exact renderNode_child_subset diamondG [] 0 relD relC (by decide)
      (by decide) _ (renderNode_head diamondG [relD] 1 relC)
  · exact renderNode_child_subset diamondG [] 0 relD relB (by decide)
      (by decide) _
      (renderNode_child_subset diamondG [relD] 1 relB relA (by decide)
        (by decide) _ (renderNode_head diamondG [relB, relD] 2 relA))
  · intro g path depth r l hl
    obtain ⟨d, n, ver, hline, _, hb⟩ := renderNode_lines g path depth r l hl
    exact ⟨d, n, ver, hline, hb⟩

theorem claim_C5_witness :
    renderNode diamondG [relD] 3 relD =
      [.treeLine 3 relD.name relD.version] :=
  claim_C5.2.1 diamondG [relD] 3 relD (by decide)

/-- C8: in human mode, when the lockfile yields no dependency graph,
`print_report` fails fatally (panics) right after the status line: no
vulnerability detail line, no tree header and no tree line is ever
printed, and there is no recovery (no resulting state). -/
theorem claim_C8 (bg : Lockfile → Option Graph) (st : PState)
    (report : Report) (lockfile : Lockfile)
    (h1 : st.config.format ≠ OutputFormat.json) (h2 : bg lockfile = none) :
    (printReport bg st report lockfile).2 = none ∧
    ∀ l ∈ (printReport bg st report lockfile).1,
      (∀ c lab s, l ≠ .attr c lab s) ∧ (∀ c, l ≠ .treeHeader c) ∧
      (∀ d n ver, l ≠ .treeLine d n ver) := by
  have hout : (printReport bg st report lockfile).1 = statusLines report := by
    rw [printReport_graphPanic bg st report lockfile h1 h2]
  have hst2 : (printReport bg st report lockfile).2 = none := by
    rw [printReport_graphPanic bg st report lockfile h1 h2]
  refine ⟨hst2, ?_⟩
  intro l hl
  rw [hout] at hl
  unfold statusLines at hl
  split at hl <;> simp only [List.mem_singleton] at hl <;> subst hl <;>
    exact ⟨fun c lab s => by simp, fun c => by simp, fun d n ver => by simp⟩

theorem claim_C8_witness :
    (printReport failingGraphFn (Presenter.new cfgHuman) emptyReport
      emptyLockfile).2 = none :=
  (claim_C8 failingGraphFn (Presenter.new cfgHuman) emptyReport emptyLockfile
    (by decide) rfl).1

/-- C7: in human mode, when `print_report` runs to completion, the output
ends with the blank-line-plus-summary pair exactly when vulnerabilities
were found, phrased in the singular exactly for a count of one and
otherwise in the plural with the literal count; when nothing was found no
error status line appears anywhere in the output. -/
theorem claim_C7 (bg : Lockfile → Option Graph) (st : PState)
    (report : Report) (lockfile : Lockfile) (stf : PState)
    (h1 : st.config.format ≠ OutputFormat.json)
    (h2 : (printReport bg st report lockfile).2 = some stf) :
    (report.vulnerabilities.found = true → report.vulnerabilities.count = 1 →
      ∃ pre, (printReport bg st report lockfile).1 =
        pre ++ [.blank, .statusErr "1 vulnerability found!"]) ∧
    (report.vulnerabilities.found = true → report.vulnerabilities.count ≠ 1 →
      ∃ pre, (printReport bg st report lockfile).1 =
        pre ++ [.blank, .statusErr
          (toString report.vulnerabilities.count ++
            " vulnerabilities found!")]) ∧
    (report.vulnerabilities.found = false →
      ∀ s, OutputLine.statusErr s ∉ (printReport bg st report lockfile).1) := by
  cases hbg : bg lockfile with
  | none =>
    have hn : (printReport bg st report lockfile).2 = none := by
      rw [printReport_graphPanic bg st report lockfile h1 hbg]
    rw [hn] at h2
    cases h2
  | some g =>
    cases hv : (printVulnList g st report.vulnerabilities.list).2 with
    | none =>
      have hn : (printReport bg st report lockfile).2 = none := by
        rw [printReport_vulnPanic bg st report lockfile g h1 hbg hv]
      rw [hn] at h2
      cases h2
    | some stx =>
      have hout : (printReport bg st report lockfile).1 =
          statusLines report ++
            (printVulnList g st report.vulnerabilities.list).1 ++
            warningLines report ++ summaryLines report := by
        rw [printReport_ok bg st report lockfile g stx h1 hbg hv]
      refine ⟨?_, ?_, ?_⟩
      · intro hf hc
        refine ⟨statusLines report ++
          (printVulnList g st report.vulnerabilities.list).1 ++
          warningLines report, ?_⟩
        rw [hout]
        unfold summaryLines
        rw [hf, hc]
        simp [List.append_assoc]
      · intro hf hc
        refine ⟨statusLines report ++
          (printVulnList g st report.vulnerabilities.list).1 ++
          warningLines report, ?_⟩
        rw [hout]
        unfold summaryLines
        rw [hf, if_neg hc]
        simp [List.append_assoc]
      · intro hf s hmem
        rw [hout] at hmem
        have hsum : summaryLines report = [] := by
          simp [summaryLines, hf]
        have hstat : statusLines report =
            [.statusOk "Success" "No vulnerable packages found"] := by
          simp [statusLines, hf]
        rw [hsum, hstat] at hmem
        simp only [List.append_nil, List.mem_append, List.mem_singleton]
          at hmem
        rcases hmem with (hm | hm) | hm
        · simp at hm
        · exact absurd rfl
            (printVulnList_no_statusErr g report.vulnerabilities.list st _
              hm s)
        · rcases warningLines_shape report _ hm with h' | ⟨s', h'⟩ |
            ⟨c, lab, s', h'⟩ <;> simp at h'

theorem claim_C7_witness :
    ∃ pre, (printReport emptyGraphFn (Presenter.new cfgHuman) repFound1
        emptyLockfile).1 =
      pre ++ [.blank, .statusErr "1 vulnerability found!"] :=
  (claim_C7 emptyGraphFn (Presenter.new cfgHuman) repFound1 emptyLockfile
    (Presenter.new cfgHuman) (by decide) rfl).1 rfl rfl

/-- C1: in human mode, however many vulnerabilities of the report
reference the same release `P`, the whole `print_report` output contains
the root line of `P`'s rendered tree at most once; the first `print_tree`
call for `P` records `P` in the displayed set, and any later call for `P`
returns at once, printing neither header nor body. -/
theorem claim_C1 (bg : Lockfile → Option Graph) (st : PState)
    (report : Report) (lockfile : Lockfile) (P : Release)
    (h1 : st.config.format ≠ OutputFormat.json)
    (h2 : 2 ≤ report.vulnerabilities.list.countP
      (fun v => v.package.release == P)) :
    rootCount (printReport bg st report lockfile).1 P ≤ 1 ∧
    (∀ (st1 : PState) (c : Color) (pkg : Package) (g : Graph) (st2 : PState),
      pkg.release = P → (printTree st1 c pkg g).2 = some st2 →
        P ∈ st2.displayed) ∧
    (∀ (st1 : PState) (c : Color) (pkg : Package) (g : Graph),
      pkg.release = P → P ∈ st1.displayed →
        printTree st1 c pkg g = ([], some st1)) := by
  refine ⟨?_, ?_, ?_⟩
  · cases hbg : bg lockfile with
    | none =>
      have hout : (printReport bg st report lockfile).1 =
          statusLines report := by
        rw [printReport_graphPanic bg st report lockfile h1 hbg]
      rw [hout, rootCount_statusLines]
      exact Nat.zero_le 1
    | some g =>
      cases hv : (printVulnList g st report.vulnerabilities.list).2 with
      | none =>
        have hout : (printReport bg st report lockfile).1 =
            statusLines report ++
              (printVulnList g st report.vulnerabilities.list).1 := by
          rw [printReport_vulnPanic bg st report lockfile g h1 hbg hv]
        rw [hout, rootCount_append, rootCount_statusLines]
        have := printVulnList_rootCount_le_one g
          report.vulnerabilities.list st P
        omega
      | some stx =>
        have hout : (printReport bg st report lockfile).1 =
            statusLines report ++
              (printVulnList g st report.vulnerabilities.list).1 ++
              warningLines report ++ summaryLines report := by
          rw [printReport_ok bg st report lockfile g stx h1 hbg hv]
        rw [hout, rootCount_append, rootCount_append, rootCount_append,
          rootCount_statusLines, rootCount_warningLines,
          rootCount_summaryLines]
        have := printVulnList_rootCount_le_one g
          report.vulnerabilities.list st P
        omega
  · intro st1 c pkg g st2 hrel hsome
    rw [printTree_state_some st1 c pkg g st2 hsome]
    exact hrel ▸ setInsert_mem_self st1.displayed pkg.release
  · intro st1 c pkg g hrel hmem
    refine printTree_already st1 c pkg g ?_
    rw [hrel]
    exact hmem

theorem claim_C1_witness :
    rootCount (printReport emptyGraphFn (Presenter.new cfgHuman) repTwice
      emptyLockfile).1 ⟨"p-crate", "1.0.0"⟩ ≤ 1 :=
  (claim_C1 emptyGraphFn (Presenter.new cfgHuman) repTwice emptyLockfile
    ⟨"p-crate", "1.0.0"⟩ (by decide) (by decide)).1

/-- C10: the displayed set starts empty at construction and is only ever
grown, never cleared: a release is inserted even with tree display
disabled, a release already displayed by an earlier report gets no tree
root line in a later `print_report` on the same presenter, and every
completed `print_report` only enlarges the displayed set. -/
theorem claim_C10 (cfg : OutputConfig) :
    (Presenter.new cfg).displayed = [] ∧
    (∀ (st : PState) (c : Color) (pkg : Package) (g : Graph),
      st.config.showTree = some false →
        printTree st c pkg g =
          ([], some ⟨(setInsert st.displayed pkg.release).1, st.config⟩) ∧
        pkg.release ∈ (setInsert st.displayed pkg.release).1) ∧
    (∀ (bg : Lockfile → Option Graph) (st : PState) (report : Report)
        (lockfile : Lockfile) (r : Release), r ∈ st.displayed →
      rootCount (printReport bg st report lockfile).1 r = 0) ∧
    (∀ (bg : Lockfile → Option Graph) (st : PState) (report : Report)
        (lockfile : Lockfile) (stf : PState),
      (printReport bg st report lockfile).2 = some stf →
        st.displayed ⊆ stf.displayed) := by
  refine ⟨rfl, ?_, ?_, ?_⟩
  · intro st c pkg g hoff
    refine ⟨?_, setInsert_mem_self st.displayed pkg.release⟩
    refine printTree_noRender st c pkg g ?_
    rw [hoff]
    rfl
  · intro bg st report lockfile r hmem
    by_cases hfmt : st.config.format = OutputFormat.json
    · have hout : (printReport bg st report lockfile).1 = [.json report] := by
        rw [printReport_json bg st report lockfile hfmt]
      rw [hout]
      refine rootCount_eq_zero_of_forall ?_
      intro l hl
      simp only [List.mem_singleton] at hl
      subst hl
      simp [rootLine]
    · cases hbg : bg lockfile with
      | none =>
        have hout : (printReport bg st report lockfile).1 =
            statusLines report := by
          rw [printReport_graphPanic bg st report lockfile hfmt hbg]
        rw [hout, rootCount_statusLines]
      | some g =>
        cases hv : (printVulnList g st report.vulnerabilities.list).2 with
        | none =>
          have hout : (printReport bg st report lockfile).1 =
              statusLines report ++
                (printVulnList g st report.vulnerabilities.list).1 := by
            rw [printReport_vulnPanic bg st report lockfile g hfmt hbg hv]
          rw [hout, rootCount_append, rootCount_statusLines,
            printVulnList_rootCount_zero g report.vulnerabilities.list st r
              hmem]
        | some stx =>
          have hout : (printReport bg st report lockfile).1 =
              statusLines report ++
                (printVulnList g st report.vulnerabilities.list).1 ++
                warningLines report ++ summaryLines report := by
            rw [printReport_ok bg st report lockfile g stx hfmt hbg hv]
          rw [hout, rootCount_append, rootCount_append, rootCount_append,
            rootCount_statusLines, rootCount_warningLines,
            rootCount_summaryLines,
            printVulnList_rootCount_zero g report.vulnerabilities.list st r
              hmem]
  · intro bg st report lockfile stf hsome
    by_cases hfmt : st.config.format = OutputFormat.json
    · have : (printReport bg st report lockfile).2 = some st := by
        rw [printReport_json bg st report lockfile hfmt]
      rw [this] at hsome
      simp only [Option.some.injEq] at hsome
      subst hsome
      exact fun x hx => hx
    · cases hbg : bg lockfile with
      | none =>
        have : (printReport bg st report lockfile).2 = none := by
          rw [printReport_graphPanic bg st report lockfile hfmt hbg]
        rw [this] at hsome
        cases hsome
      | some g =>
        cases hv : (printVulnList g st report.vulnerabilities.list).2 with
        | none =>
          have : (printReport bg st report lockfile).2 = none := by
            rw [printReport_vulnPanic bg st report lockfile g hfmt hbg hv]
          rw [this] at hsome
          cases hsome
        | some stx =>
          have : (printReport bg st report lockfile).2 = some stx := by
            rw [printReport_ok bg st report lockfile g stx hfmt hbg hv]
          rw [this] at hsome
          simp only [Option.some.injEq] at hsome
          exact hsome ▸
            (printVulnList_state_mono g report.vulnerabilities.list st
              stx hv).1

theorem claim_C10_witness :
    rootCount (printReport emptyGraphFn stBoth emptyReport emptyLockfile).1
      ⟨"smallvec", "0.6.13"⟩ = 0 :=
  (claim_C10 cfgHuman).2.2.1 emptyGraphFn stBoth emptyReport emptyLockfile
    ⟨"smallvec", "0.6.13"⟩ (by decide)

/-- C6: disabling `show_tree` changes the output of `print_report` by
exactly removing every dependency-tree header and tree line; every other
line is unchanged and keeps its order.  (Stated under the §4.2 caller
contract that every referenced release has a node in the graph; on a
contract violation the tree-enabled run would panic mid-output.) -/
theorem claim_C6 (bg : Lockfile → Option Graph) (d : List Release)
    (cfg : OutputConfig) (report : Report) (lockfile : Lockfile)
    (hwf : ∀ g, bg lockfile = some g →
      ∀ v ∈ report.vulnerabilities.list, v.package.release ∈ graphNodes g) :
    (printReport bg ⟨d, { cfg with showTree := some false }⟩ report
        lockfile).1 =
      (printReport bg ⟨d, { cfg with showTree := some true }⟩ report
          lockfile).1.filter (fun l => !isTreeOutput l) := by
  by_cases hfmt : cfg.format = OutputFormat.json
  · have ho1 : (printReport bg ⟨d, { cfg with showTree := some false }⟩
        report lockfile).1 = [.json report] := by
      rw [printReport_json _ _ _ _ hfmt]
    have ho2 : (printReport bg ⟨d, { cfg with showTree := some true }⟩
        report lockfile).1 = [.json report] := by
      rw [printReport_json _ _ _ _ hfmt]
    rw [ho1, ho2]
    rfl
  · cases hbg : bg lockfile with
    | none =>
      have ho1 : (printReport bg ⟨d, { cfg with showTree := some false }⟩
          report lockfile).1 = statusLines report := by
        rw [printReport_graphPanic _ _ _ _ hfmt hbg]
      have ho2 : (printReport bg ⟨d, { cfg with showTree := some true }⟩
          report lockfile).1 = statusLines report := by
        rw [printReport_graphPanic _ _ _ _ hfmt hbg]
      rw [ho1, ho2, filter_not_tree_of_shape (statusLines_not_tree report)]
    | some g =>
      obtain ⟨d', hvout, hoff2, hon2⟩ :=
        printVulnList_showTree_filter g report.vulnerabilities.list
          (hwf g hbg) d cfg
      have ho1 : (printReport bg ⟨d, { cfg with showTree := some false }⟩
          report lockfile).1 =
          statusLines report ++
            (printVulnList g ⟨d, { cfg with showTree := some false }⟩
              report.vulnerabilities.list).1 ++
            warningLines report ++ summaryLines report := by
        rw [printReport_ok _ _ _ _ g _ hfmt hbg hoff2]
      have ho2 : (printReport bg ⟨d, { cfg with showTree := some true }⟩
          report lockfile).1 =
          statusLines report ++
            (printVulnList g ⟨d, { cfg with showTree := some true }⟩
              report.vulnerabilities.list).1 ++
            warningLines report ++ summaryLines report := by
        rw [printReport_ok _ _ _ _ g _ hfmt hbg hon2]
      rw [ho1, ho2, hvout, List.filter_append, List.filter_append,
        List.filter_append,
        filter_not_tree_of_shape (statusLines_not_tree report),
        filter_not_tree_of_shape (warningLines_not_tree report),
        filter_not_tree_of_shape (summaryLines_not_tree report)]

theorem claim_C6_witness :
    (printReport emptyGraphFn ⟨[], { cfgHuman with showTree := some false }⟩
        emptyReport emptyLockfile).1 =
      (printReport emptyGraphFn ⟨[], { cfgHuman with showTree := some true }⟩
          emptyReport emptyLockfile).1.filter (fun l => !isTreeOutput l) :=
  claim_C6 emptyGraphFn [] cfgHuman emptyReport emptyLockfile
    (fun g _ v hv => absurd hv (by simp [emptyReport]))
